import Mathlib

/-!
Verification development for the PyMC3 back-end of bambi
(`bambi/backends/pymc.py`).

The Python module glues an abstract model specification to the PyMC3
runtime.  We give a shallow embedding of its logic:

* `resolveDist` embeds the string-resolution at the top of
  `PyMC3BackEnd._build_dist` (look up in `pm`, then in the local
  `dists` table, else raise `ValueError`).
* `Val` / `Built` model the values that flow through the builder:
  opaque runtime values (tagged with whether they are instances of
  `pm.model.TransformedRV`), Python ints, nested `Prior`
  specifications, and already-built PyMC3 variables.
* `_expand_args` / `_build_dist` embed the recursive hyperprior
  expansion and the non-centered reparameterization branch; they also
  return the trace of named variables created in the model graph, in
  creation order.
* List/matrix functions embed the NumPy operations used by
  `PyMC3BackEnd.build` for fixed and random effect terms.
* `run` embeds the method dispatch of `PyMC3BackEnd.run`.
* `pySlice` / `stdsReshaped` / `_laplace_cov` embed the standard
  deviation reshaping walk and the singular-Hessian check of
  `_laplace`.
* `reset` / `buildEffect` embed the attribute-level state effects of
  `PyMC3BackEnd.reset` and `PyMC3BackEnd.build`.

The external PyMC3 runtime is a parameter (`PmEnv`): which distribution
names exist in `pm`, and which resolved distributions construct
`TransformedRV` instances.
-/

namespace Bambi

/-- A distribution identifier resolved by `_build_dist`: either a PyMC3
built-in (`getattr(pm, dist)`) or the single entry of the back-end's
local `dists` table, `pm.Bound(pm.Flat, lower=0)`. -/
inductive Resolved where
  | pmDist (name : String)
  | boundFlat
deriving DecidableEq, Repr

/-- The PyMC3 runtime, abstracted: `hasDist d` is `hasattr(pm, d)`, and
`transformedResolved r` says whether constructing the resolved
distribution `r` yields a `pm.model.TransformedRV` instance. -/
structure PmEnv where
  hasDist : String → Bool
  transformedResolved : Resolved → Bool

/-- The part of the abstract bambi model specification read by
`_build_dist`: the `noncentered` flag. -/
structure ModelSpec where
  noncentered : Bool

mutual

/-- A value appearing as a keyword argument of `_build_dist`:
an opaque runtime value (with its `isinstance(·, pm.model.TransformedRV)`
status and an identifying tag), a Python int (e.g. a shape), a nested
`Prior` specification (name and args), or a previously built variable. -/
inductive Val where
  | raw (transformed : Bool) (tag : String)
  | nat (n : Nat)
  | prior (name : String) (args : List (String × Val))
  | built (b : Built)

/-- The variable returned by `_build_dist`: either the resolved
distribution constructed directly as `dist(label, **kwargs)`, or the
non-centered form `pm.Deterministic(label, _offset * old_sigma)`. -/
inductive Built where
  | direct (r : Resolved) (label : String) (args : List (String × Val))
  | offsetTimesSigma (label : String) (shape : Val) (sigma : Val)

end

instance : Inhabited Val := ⟨Val.nat 0⟩

/-- A named variable registered in the PyMC3 model graph by
`_build_dist`, in creation order: a direct distribution call
`dist(label, **kwargs)`, the `pm.Normal(label + "_offset", mu=0,
sigma=1, shape=...)` offset, or the `pm.Deterministic(label, _offset *
old_sigma)` variable. -/
inductive GraphVar where
  | distVar (label : String) (r : Resolved) (args : List (String × Val))
  | offsetVar (label : String) (shape : Val)
  | detVar (label : String) (offsetLabel : String) (sigma : Val)

/-- The local `dists` table of `PyMC3BackEnd`:
`{"HalfFlat": pm.Bound(pm.Flat, lower=0)}`. -/
def dists : List (String × Resolved) := [("HalfFlat", Resolved.boundFlat)]

/-- String resolution at the top of `_build_dist`: try `pm` first, then
the local `dists` table, else raise
`ValueError(f"The Distribution {dist} was not found in PyMC3 or the
PyMC3BackEnd.")`. -/
def resolveDist (env : PmEnv) (dist : String) : Except String Resolved :=
  if env.hasDist dist then Except.ok (Resolved.pmDist dist)
  else
    match List.lookup dist dists with
    | some d => Except.ok d
    | none =>
        Except.error
          ("The Distribution " ++ dist ++ " was not found in PyMC3 or the PyMC3BackEnd.")

/-- `isinstance(v, pm.model.TransformedRV)` for an embedded value.
A Python int is not a `TransformedRV`; a `Prior` instance is not;
a directly constructed distribution is one exactly when the runtime says
so; `pm.Deterministic` is not a `TransformedRV`. -/
def isTransformedRV (env : PmEnv) : Val → Bool
  | Val.raw t _ => t
  | Val.nat _ => false
  | Val.prior _ _ => false
  | Val.built (Built.direct r _ _) => env.transformedResolved r
  | Val.built (Built.offsetTimesSigma _ _ _) => false

/-- The tail of `_build_dist` after argument expansion: either take the
non-centered branch (when `spec.noncentered`, `"sigma" in kwargs`,
`"observed" not in kwargs` and `kwargs["sigma"]` is a `TransformedRV`,
in which case `old_sigma = kwargs["sigma"]` is read, then the offset
`pm.Normal(label + "_offset", mu=0, sigma=1, shape=kwargs["shape"])` is
created and `pm.Deterministic(label, _offset * old_sigma)` returned), or
construct the resolved distribution directly as `dist(label, **kwargs)`.
`kw` is the expanded kwargs and `tr` the trace of variables created so
far; a Python `KeyError` surfaces as `Except.error`. -/
def _finish_dist (env : PmEnv) (spec : ModelSpec) (label : String) (r : Resolved)
    (kw : List (String × Val)) (tr : List GraphVar) :
    Except String (Built × List GraphVar) :=
  if spec.noncentered && (List.lookup "sigma" kw).isSome
      && (List.lookup "observed" kw).isNone
      && isTransformedRV env ((List.lookup "sigma" kw).getD (Val.nat 0)) then
    match List.lookup "sigma" kw with
    | none => Except.error "KeyError: sigma"
    | some old_sigma =>
      match List.lookup "shape" kw with
      | none => Except.error "KeyError: shape"
      | some sh =>
        Except.ok (Built.offsetTimesSigma label sh old_sigma,
          tr ++ [GraphVar.offsetVar (label ++ "_offset") sh,
                 GraphVar.detVar label (label ++ "_offset") old_sigma])
  else
    Except.ok (Built.direct r label kw, tr ++ [GraphVar.distVar label r kw])

mutual

/-- Embedding of the inner `_expand_args(key, value, label)` of
`_build_dist`: a value that is a `Prior` is recursively built (the
recursion is the body of `_build_dist` itself — see
`_expand_args_prior_eq_build_dist`) under the derived label
`f"{label}_{key}"`, forwarding only the nested prior's own `value.name`
and `value.args`; any other value is returned unchanged.  Also returns
the trace of variables the recursive build created. -/
def _expand_args (env : PmEnv) (spec : ModelSpec) (label : String) (k : String) :
    Val → Except String (Val × List GraphVar)
  | Val.prior nm args =>
    match resolveDist env nm with
    | Except.error e => Except.error e
    | Except.ok r =>
      match _expand_kwargs env spec (label ++ "_" ++ k) args with
      | Except.error e => Except.error e
      | Except.ok (kw, tr) =>
        match _finish_dist env spec (label ++ "_" ++ k) r kw tr with
        | Except.error e => Except.error e
        | Except.ok (b, tr2) => Except.ok (Val.built b, tr2)
  | v => Except.ok (v, [])

/-- Embedding of the comprehension
`kwargs = {k: _expand_args(k, v, label) for (k, v) in kwargs.items()}`
inside `_build_dist`.  Traces of created variables are concatenated in
argument order. -/
def _expand_kwargs (env : PmEnv) (spec : ModelSpec) (label : String) :
    List (String × Val) → Except String (List (String × Val) × List GraphVar)
  | [] => Except.ok ([], [])
  | (k, v) :: rest =>
    match _expand_args env spec label k v with
    | Except.error e => Except.error e
    | Except.ok (v2, tr) =>
      match _expand_kwargs env spec label rest with
      | Except.error e => Except.error e
      | Except.ok (rest2, tr2) => Except.ok ((k, v2) :: rest2, tr ++ tr2)

end

/-- Embedding of `PyMC3BackEnd._build_dist`: resolve the distribution
string, expand nested `Prior` keyword arguments, then run the
non-centered-or-direct tail (`_finish_dist`).  Returns the built
variable together with the named variables created in the model graph,
in creation order. -/
def _build_dist (env : PmEnv) (spec : ModelSpec) (label : String) (dist : String)
    (kwargs : List (String × Val)) : Except String (Built × List GraphVar) :=
  match resolveDist env dist with
  | Except.error e => Except.error e
  | Except.ok r =>
    match _expand_kwargs env spec label kwargs with
    | Except.error e => Except.error e
    | Except.ok (kw, tr) => _finish_dist env spec label r kw tr

/-! ### NumPy operations used by `PyMC3BackEnd.build`

Arrays are embedded as lists of rationals; an `(n, 1)` column array is a
list of singleton rows. -/

/-- Dot product of two vectors (`np.dot` on 1-d operands). -/
def dotList (xs ys : List ℚ) : ℚ := (List.zipWith (· * ·) xs ys).sum

/-- `pm.math.dot(data, coef)` for a 2-d `data` and 1-d `coef`: one dot
product per row. -/
def matVec (rows : List (List ℚ)) (coef : List ℚ) : List ℚ :=
  rows.map (fun r => dotList r coef)

/-- `x[:, None]`: turn a 1-d array into an `(n, 1)` column. -/
def colOf (v : List ℚ) : List (List ℚ) := v.map (fun x => [x])

/-- NumPy fancy indexing `coef[gidx]`: one row of `coef` per index.
NumPy raises `IndexError` for an out-of-range index; the claims assume
indices in `[0, g)`, where `getD` returns the actual element. -/
def fancyIndex (coef : List ℚ) (gidx : List Nat) : List ℚ :=
  gidx.map (fun g => coef.getD g 0)

/-- Elementwise product of two arrays of equal shape. -/
def mulMat (a b : List (List ℚ)) : List (List ℚ) :=
  List.zipWith (List.zipWith (· * ·)) a b

/-- Elementwise sum of two arrays of equal shape. -/
def addMat (a b : List (List ℚ)) : List (List ℚ) :=
  List.zipWith (List.zipWith (· + ·)) a b

/-- The running linear predictor `self.mu`: the Python float `0.0` it is
initialized to, or an `(n, 1)` column array after a broadcast `+=`. -/
inductive MuVal where
  | scalar (q : ℚ)
  | col (v : List (List ℚ))
deriving Repr

/-- `self.mu += contrib` with NumPy broadcasting: adding an array to the
scalar `0.0` broadcasts the scalar over the array. -/
def muAdd : MuVal → List (List ℚ) → MuVal
  | MuVal.scalar q, m => MuVal.col (m.map (fun row => row.map (fun x => q + x)))
  | MuVal.col v, m => MuVal.col (addMat v m)

/-- One term of the abstract model specification, as read by
`PyMC3BackEnd.build`: label, design data, prior name and args, the
random-effect flag, and (for random terms) the group index vector and
raw predictor column.  `nCols` is `t.data.shape[1]`. -/
structure Term where
  name : String
  data : List (List ℚ)
  nCols : Nat
  priorName : String
  priorArgs : List (String × Val)
  random : Bool
  group_index : List Nat
  predictor : List ℚ

/-- The `_build_dist` call made by `build` for a term:
`self._build_dist(spec, label, dist_name, shape=n_cols, **dist_args)`.
Returns `(label, dist_name, kwargs)`. -/
def coefCall (t : Term) : String × String × List (String × Val) :=
  (t.name, t.priorName, ("shape", Val.nat t.nCols) :: t.priorArgs)

/-- The term's contribution added to `self.mu` by `build`, given a
valuation `coef` of the term's coefficient variable:
`coef[t.group_index][:, None] * t.predictor` for a random term (with
`t.predictor` an `(n, 1)` column), else
`pm.math.dot(data, coef)[:, None]`. -/
def termContrib (t : Term) (coef : List ℚ) : List (List ℚ) :=
  if t.random then mulMat (colOf (fancyIndex coef t.group_index)) (colOf t.predictor)
  else colOf (matVec t.data coef)

/-- The accumulated linear predictor of `build`: starts at the scalar
`0.0` and folds each term's contribution in, under a valuation `coefs`
of the coefficient variables. -/
def buildMu (terms : List Term) (coefs : Term → List ℚ) : MuVal :=
  terms.foldl (fun mu t => muAdd mu (termContrib t (coefs t))) (MuVal.scalar 0)

/-! ### Back-end state, `reset` and `run` -/

/-- The attributes of a `PyMC3BackEnd` instance.  Opaque runtime objects
(the PyMC3 model, traces, ADVI parameter objects, the spec reference)
are identified by `Nat` tokens. -/
structure BackendState where
  model : Nat
  mu : Option MuVal
  par_groups : List (String × Nat)
  spec : Option Nat
  trace : Option Nat
  advi_params : Option Nat

/-- Embedding of `PyMC3BackEnd.reset`: replace `self.model` with a fresh
`pm.Model()` (the token `freshModel`), set `self.mu = None` and
`self.par_groups = {}`.  No other attribute is touched. -/
def reset (st : BackendState) (freshModel : Nat) : BackendState :=
  { st with model := freshModel, mu := none, par_groups := [] }

/-- Attribute-level effect of `PyMC3BackEnd.build`: optionally reset,
then set `self.mu` (to the accumulated predictor `muv`) and
`self.spec = spec`.  `trace` and `advi_params` are not written by
`build`. -/
def buildEffect (st : BackendState) (freshModel : Nat) (spec : Nat) (muv : MuVal)
    (doReset : Bool) : BackendState :=
  let st1 := if doReset then reset st freshModel else st
  { st1 with mu := some muv, spec := some spec }

/-- The value returned by `PyMC3BackEnd.run`: the
`from_pymc3(self.trace, model=model)` exchange object, the raw ADVI
parameter object, the `_laplace(model)` dictionary, or Python's implicit
`None` when no branch matches. -/
inductive RunOutcome where
  | inferenceData (trace : Nat) (model : Nat)
  | adviParams (params : Nat)
  | laplaceFit (res : Nat)
deriving DecidableEq, Repr

/-- The inference runtime behind `run`, abstracted: `pm.sample` inside
the model context yields a trace token, `pm.variational.ADVI` yields a
parameter token, and `_laplace` yields a result token. -/
structure RunEnv where
  sample : Nat → Nat
  advi : Nat → Nat
  laplaceFit : Nat → Nat

/-- Python's `method.lower()`: lowercase every character (the three
method names compared against are plain ASCII). -/
def lowerStr (s : String) : String := String.mk (s.data.map Char.toLower)

/-- Embedding of `PyMC3BackEnd.run`: dispatch on `method.lower()` among
`"mcmc"`, `"advi"` and `"laplace"`; the first branch stores the trace in
`self.trace` and returns the exchange object, the second stores the ADVI
parameters, the third returns `_laplace(model)`, and any other method
string falls through, leaving the state unchanged and returning Python's
implicit `None`. -/
def run (env : RunEnv) (st : BackendState) (method : String) :
    BackendState × Option RunOutcome :=
  if lowerStr method = "mcmc" then
    let tr := env.sample st.model
    ({ st with trace := some tr }, some (RunOutcome.inferenceData tr st.model))
  else if lowerStr method = "advi" then
    let p := env.advi st.model
    ({ st with advi_params := some p }, some (RunOutcome.adviParams p))
  else if lowerStr method = "laplace" then
    (st, some (RunOutcome.laplaceFit (env.laplaceFit st.model)))
  else
    (st, none)

/-! ### `_laplace`: the singular-Hessian check and the reshaping walk -/

/-- The number of elements of an array of the given shape (the product
of the dimensions). -/
def numel (shape : List Nat) : Nat := shape.prod

/-- Python slicing `xs[a:b]` (clamping, as in Python). -/
def pySlice (xs : List ℚ) (a b : Nat) : List ℚ := (xs.drop a).take (b - a)

/-- `np.reshape(xs, shape)`: succeeds, preserving the flat data, exactly
when the flat length equals the number of elements of the target shape;
otherwise NumPy raises `ValueError`. -/
def npReshape (xs : List ℚ) (shape : List Nat) : Except String (List ℚ) :=
  if xs.length = numel shape then Except.ok xs
  else Except.error "cannot reshape array"

/-- Embedding of the reshaping loop of `_laplace`: walking the shapes
with a cumulative offset `idx0`, each step takes the slice
`stds[idx0 : idx0 + sum(shape)]`, reshapes it to `shape`, and advances
`idx0` by `sum(shape)`.  The reshaped arrays are kept flat (row-major),
paired with their shape by the caller. -/
def stdsReshaped : List (List Nat) → Nat → List ℚ → Except String (List (List ℚ))
  | [], _, _ => Except.ok []
  | shape :: rest, idx0, stds =>
    let idx1 := idx0 + shape.sum
    match npReshape (pySlice stds idx0 idx1) shape with
    | Except.error e => Except.error e
    | Except.ok r =>
      match stdsReshaped rest idx1 stds with
      | Except.error e => Except.error e
      | Except.ok rs => Except.ok (r :: rs)

/-- The dictionary returned by `_laplace`:
`dict(zip(names, zip(modes, stds_reshaped)))`. -/
def laplaceDict (names : List String) (modes : List ℚ)
    (stds_reshaped : List (List ℚ)) : List (String × ℚ × List ℚ) :=
  names.zip (modes.zip stds_reshaped)

/-- Embedding of the singular-Hessian check of `_laplace`: if
`np.linalg.det(hessian) == 0`, raise
`np.linalg.LinAlgError("Singular matrix. Use mcmc or advi method")`;
otherwise proceed with the ordinary inverse `np.linalg.inv(hessian)`
(for a nonsingular matrix, `det⁻¹ • adjugate`) — no pseudo-inverse is
ever taken. -/
def _laplace_cov (n : Nat) (hessian : Matrix (Fin n) (Fin n) ℚ) :
    Except String (Matrix (Fin n) (Fin n) ℚ) :=
  if hessian.det = 0 then Except.error "Singular matrix. Use mcmc or advi method"
  else Except.ok (hessian.det⁻¹ • hessian.adjugate)

/-- The slices `stds[idx0 : idx0 + sum(shape)]` taken by the reshaping
walk of `_laplace`, before the per-slice `np.reshape` feasibility check
(same cumulative offsets as `stdsReshaped`). -/
def stdsSlices : List (List Nat) → Nat → List ℚ → List (List ℚ)
  | [], _, _ => []
  | shape :: rest, idx0, stds =>
      pySlice stds idx0 (idx0 + shape.sum) :: stdsSlices rest (idx0 + shape.sum) stds

/-- The named variables the tail of `_build_dist` itself registers for
the variable it returns: the direct `dist(label, **kwargs)` call, or the
`label + "_offset"` normal followed by the `label` deterministic. -/
def ownerVars : Built → List GraphVar
  | Built.direct r label kw => [GraphVar.distVar label r kw]
  | Built.offsetTimesSigma label sh sg =>
      [GraphVar.offsetVar (label ++ "_offset") sh,
       GraphVar.detVar label (label ++ "_offset") sg]

/-! ### Concrete fixtures used to instantiate the theorems -/

/-- A runtime in which every distribution name resolves and no
constructed distribution is transformed. -/
def envAll : PmEnv := { hasDist := fun _ => true, transformedResolved := fun _ => false }

/-- A runtime with no distributions at all. -/
def envNone : PmEnv := { hasDist := fun _ => false, transformedResolved := fun _ => false }

/-- A specification with non-centered parameterization enabled. -/
def specNC : ModelSpec := { noncentered := true }

/-- A specification with non-centered parameterization disabled. -/
def specC : ModelSpec := { noncentered := false }

/-- A concrete inference runtime for exercising `run`. -/
def envRun : RunEnv :=
  { sample := fun m => m + 1, advi := fun m => m + 2, laplaceFit := fun m => m + 3 }

/-- A concrete back-end state for exercising `run`. -/
def st0 : BackendState :=
  { model := 0, mu := none, par_groups := [], spec := none, trace := none,
    advi_params := none }

/-- A concrete random-effect term: three observations, two groups. -/
def tRand : Term :=
  { name := "g", data := [], nCols := 0, priorName := "Normal", priorArgs := [],
    random := true, group_index := [1, 0, 1], predictor := [2, 3, 4] }

/-- A concrete fixed-effect term: three observations, two design columns. -/
def tFix : Term :=
  { name := "b", data := [[1, 2], [3, 4], [5, 6]], nCols := 2, priorName := "Normal",
    priorArgs := [], random := false, group_index := [], predictor := [] }

/-! ## Theorems -/

/-- The recursion in `_expand_args` on a `Prior` value is exactly the
Python recursive call `self._build_dist(spec, label, value.name,
**value.args)` under the derived label. -/
theorem _expand_args_prior_eq_build_dist (env : PmEnv) (spec : ModelSpec)
    (label k nm : String) (args : List (String × Val)) :
    _expand_args env spec label k (Val.prior nm args) =
      (_build_dist env spec (label ++ "_" ++ k) nm args).map
        (fun p => (Val.built p.1, p.2)) := by
  rw [_expand_args, _build_dist]
  cases resolveDist env nm with
  | error e => rfl
  | ok r =>
    cases hx : _expand_kwargs env spec (label ++ "_" ++ k) args with
    | error e => rfl
    | ok p =>
      cases p with
      | mk kw tr =>
        cases hf : _finish_dist env spec (label ++ "_" ++ k) r kw tr with
        | error e => simp [hf, Except.map]
        | ok q => simp [hf, Except.map]

/-- Looking a name up in the local `dists` table finds exactly the
`"HalfFlat"` entry. -/
theorem lookup_dists (dist : String) :
    List.lookup dist dists =
      if dist = "HalfFlat" then some Resolved.boundFlat else none := by
  by_cases h : dist = "HalfFlat"
  · simp [dists, List.lookup, h]
  · have hb : (dist == "HalfFlat") = false := beq_eq_false_iff_ne.mpr h
    simp [dists, List.lookup, hb, h]

/-- Claim C4: resolution of a string distribution identifier tries the
PyMC3 built-ins first, then the local `dists` table — a name found in
PyMC3 is never looked up in the local table (the first conjunct holds
whatever the table contains) — and a name found in neither makes the
builder raise an error naming the identifier and both lookup sources. -/
theorem C4_resolution_order (env : PmEnv) (dist : String) (spec : ModelSpec)
    (label : String) (kwargs : List (String × Val)) :
    (env.hasDist dist = true →
      resolveDist env dist = Except.ok (Resolved.pmDist dist))
    ∧ (env.hasDist dist = false → dist = "HalfFlat" →
      resolveDist env dist = Except.ok Resolved.boundFlat)
    ∧ (env.hasDist dist = false → dist ≠ "HalfFlat" →
      resolveDist env dist =
          Except.error ("The Distribution " ++ dist ++
            " was not found in PyMC3 or the PyMC3BackEnd.")
        ∧ _build_dist env spec label dist kwargs =
          Except.error ("The Distribution " ++ dist ++
            " was not found in PyMC3 or the PyMC3BackEnd.")) := by
  refine ⟨fun h => by simp [resolveDist, h], fun h he => ?_, fun h hne => ?_⟩
  · subst he
    simp [resolveDist, h, lookup_dists]
  · have hl : List.lookup dist dists = none := by simp [lookup_dists, hne]
    exact ⟨by simp [resolveDist, h, hl], by simp [_build_dist, resolveDist, h, hl]⟩

/-- Witness for C4: a name absent from the runtime and from the local
table produces the documented error. -/
theorem C4_resolution_order_witness :
    resolveDist envNone "Gaussian" =
      Except.error
        "The Distribution Gaussian was not found in PyMC3 or the PyMC3BackEnd." :=
  ((C4_resolution_order envNone "Gaussian" specC "y" []).2.2 rfl (by decide)).1

/-- Claim C3: the Laplace method raises the "singular matrix" error
directing the caller to mcmc or advi exactly when the determinant of the
Hessian is zero, and otherwise proceeds with the ordinary matrix inverse
(no pseudo-inverse recovery). -/
theorem C3_singular_hessian (n : Nat) (hessian : Matrix (Fin n) (Fin n) ℚ) :
    (_laplace_cov n hessian =
        Except.error "Singular matrix. Use mcmc or advi method" ↔ hessian.det = 0)
    ∧ (hessian.det ≠ 0 → _laplace_cov n hessian = Except.ok hessian⁻¹) := by
  constructor
  · constructor
    · intro h
      by_contra hd
      simp [_laplace_cov, hd] at h
    · intro hd
      simp [_laplace_cov, hd]
  · intro hd
    simp [_laplace_cov, hd, Matrix.inv_def, Ring.inverse_eq_inv]

/-- Witness for C3: the 1×1 zero Hessian raises the error; an invertible
Hessian is inverted. -/
theorem C3_singular_hessian_witness :
    _laplace_cov 1 !![(0 : ℚ)] =
        Except.error "Singular matrix. Use mcmc or advi method"
    ∧ _laplace_cov 1 !![(2 : ℚ)] = Except.ok (!![(2 : ℚ)])⁻¹ :=
  ⟨(C3_singular_hessian 1 !![(0 : ℚ)]).1.mpr (by norm_num [Matrix.det_fin_one]),
   (C3_singular_hessian 1 !![(2 : ℚ)]).2 (by norm_num [Matrix.det_fin_one])⟩

/-- Claim C7: `run` dispatches purely on the lowercased method string
(so the comparison against the three supported names is
case-insensitive), each supported name selects its documented branch,
and any other method string returns the implicit `None` with no state
change and no error. -/
theorem C7_run_dispatch (env : RunEnv) (st : BackendState) (method : String) :
    (∀ m2 : String, lowerStr method = lowerStr m2 → run env st method = run env st m2)
    ∧ (lowerStr method = "mcmc" →
        run env st method =
          ({ st with trace := some (env.sample st.model) },
           some (RunOutcome.inferenceData (env.sample st.model) st.model)))
    ∧ (lowerStr method = "advi" →
        run env st method =
          ({ st with advi_params := some (env.advi st.model) },
           some (RunOutcome.adviParams (env.advi st.model))))
    ∧ (lowerStr method = "laplace" →
        run env st method = (st, some (RunOutcome.laplaceFit (env.laplaceFit st.model))))
    ∧ (lowerStr method ≠ "mcmc" → lowerStr method ≠ "advi" →
        lowerStr method ≠ "laplace" → run env st method = (st, none)) := by
  refine ⟨fun m2 h => by simp only [run, h],
    fun h => by simp [run, h],
    fun h => ?_, fun h => ?_,
    fun h1 h2 h3 => by simp [run, h1, h2, h3]⟩
  · have h1 : lowerStr method ≠ "mcmc" := by simp [h]
    simp [run, h, h1]
  · have h1 : lowerStr method ≠ "mcmc" := by simp [h]
    have h2 : lowerStr method ≠ "advi" := by simp [h]
    simp [run, h, h1, h2]

/-- Witness for C7: an unsupported method name returns no result, no
error, and leaves the state unchanged. -/
theorem C7_run_dispatch_witness : run envRun st0 "Banana" = (st0, none) :=
  (C7_run_dispatch envRun st0 "Banana").2.2.2.2 (by decide) (by decide) (by decide)

/-- Claim C10: `reset` recreates only the model graph, the running
linear predictor and the parameter-group table; `spec`, `trace` and
`advi_params` are untouched by `reset`, and a reset-and-rebuild
(`buildEffect` with reset) also leaves `trace` and `advi_params` intact,
so previous inference results survive. -/
theorem C10_reset_frame (st : BackendState) (fresh : Nat) :
    (reset st fresh).spec = st.spec
    ∧ (reset st fresh).trace = st.trace
    ∧ (reset st fresh).advi_params = st.advi_params
    ∧ (reset st fresh).model = fresh
    ∧ (reset st fresh).mu = none
    ∧ (reset st fresh).par_groups = []
    ∧ ∀ spec muv doReset,
        (buildEffect st fresh spec muv doReset).trace = st.trace
        ∧ (buildEffect st fresh spec muv doReset).advi_params = st.advi_params := by
  refine ⟨rfl, rfl, rfl, rfl, rfl, rfl, fun spec muv doReset => ?_⟩
  cases doReset <;> exact ⟨rfl, rfl⟩

/-- The reshaping walk of `_laplace`, generalized over the running
offset: when every shape is one-dimensional (as `np.atleast_1d`
guarantees for the scalar and vector modes this back-end produces) and
`stds` holds exactly the remaining coordinates, every reshape succeeds,
slice `i` has `numel (shapes[i])` elements, and the slices concatenate
back to the tail of `stds` — i.e. each slice starts where the previous
one ended. -/
theorem stdsReshaped_eq_slices (shapes : List (List Nat)) :
    ∀ (idx0 : Nat) (stds : List ℚ),
      (∀ s ∈ shapes, s.length = 1) →
      stds.length = idx0 + (shapes.map List.sum).sum →
      stdsReshaped shapes idx0 stds = Except.ok (stdsSlices shapes idx0 stds)
      ∧ (stdsSlices shapes idx0 stds).map List.length = shapes.map numel
      ∧ (stdsSlices shapes idx0 stds).flatten = stds.drop idx0 := by
  induction shapes with
  | nil =>
    intro idx0 stds h1 hlen
    refine ⟨rfl, rfl, ?_⟩
    show ([] : List ℚ) = stds.drop idx0
    exact (List.drop_eq_nil_of_le (by simp at hlen; omega)).symm
  | cons s rest ih =>
    intro idx0 stds h1 hlen
    obtain ⟨m, hm⟩ := List.length_eq_one.mp (h1 s (by simp))
    subst hm
    have hsum : List.sum [m] = m := by simp
    have htotal : stds.length = idx0 + m + ((rest.map List.sum).sum) := by
      simp at hlen
      omega
    have hslice : (pySlice stds idx0 (idx0 + m)).length = m := by
      simp [pySlice]
      omega
    obtain ⟨ihok, ihlen, ihjoin⟩ :=
      ih (idx0 + m) stds (fun u hu => h1 u (by simp [hu])) (by omega)
    have hre : npReshape (pySlice stds idx0 (idx0 + m)) [m] =
        Except.ok (pySlice stds idx0 (idx0 + m)) := by
      rw [npReshape, if_pos]
      rw [hslice]
      simp [numel]
    refine ⟨?_, ?_, ?_⟩
    · rw [stdsReshaped, stdsSlices]
      simp only [hsum]
      rw [hre, ihok]
    · rw [stdsSlices]
      simp only [hsum, List.map, hslice]
      rw [ihlen]
      simp [numel]
    · rw [stdsSlices]
      simp only [hsum, List.flatten_cons]
      rw [ihjoin, pySlice]
      have h2 : idx0 + m - idx0 = m := by omega
      rw [h2]
      exact List.drop_take_append_drop stds idx0 m

/-- Claim C2 (amended): for every sequence of at-most-one-dimensional
variables (as produced by `np.atleast_1d` for the scalars and vectors
this back-end creates), the walk succeeds and maps each variable to a
slice that starts where the previous variable's slice ended and has
length equal to the number of elements of that variable; in general the
code advances the offset by the SUM of the shape's components, which
only coincides with the number of elements in the one-dimensional
case (see `C2_reshape_counterexample`). -/
theorem C2_reshape_walk (shapes : List (List Nat)) (stds : List ℚ)
    (h1 : ∀ s ∈ shapes, s.length = 1)
    (hlen : stds.length = (shapes.map List.sum).sum) :
    stdsReshaped shapes 0 stds = Except.ok (stdsSlices shapes 0 stds)
    ∧ (stdsSlices shapes 0 stds).map List.length = shapes.map numel
    ∧ (stdsSlices shapes 0 stds).flatten = stds := by
  obtain ⟨h2, h3, h4⟩ := stdsReshaped_eq_slices shapes 0 stds h1 (by omega)
  exact ⟨h2, h3, by simpa using h4⟩

/-- Witness for C2 (amended): two one-dimensional variables of sizes 2
and 1 partition three standard deviations contiguously. -/
theorem C2_reshape_walk_witness :
    stdsReshaped [[2], [1]] 0 [1, 2, 3] =
        Except.ok (stdsSlices [[2], [1]] 0 [1, 2, 3])
    ∧ (stdsSlices [[2], [1]] 0 [1, 2, 3]).map List.length = [[2], [1]].map numel
    ∧ (stdsSlices [[2], [1]] 0 [1, 2, 3]).flatten = [1, 2, 3] :=
  C2_reshape_walk [[2], [1]] [1, 2, 3] (by decide) (by decide)

/-- Counterexample for C2 as stated: for a variable of shape (2, 3) the
code's slice has length sum(shape) = 5, not the number of elements 6,
and the reshape step then fails instead of producing the claimed
mapping. -/
theorem C2_reshape_counterexample :
    (pySlice [1, 2, 3, 4, 5, 6] 0 (0 + [2, 3].sum)).length = 5
    ∧ numel [2, 3] = 6
    ∧ stdsReshaped [[2, 3]] 0 [1, 2, 3, 4, 5, 6] =
        Except.error "cannot reshape array" :=
  ⟨rfl, rfl, rfl⟩

/-- `getD` through `colOf` (`x[:, None]`). -/
theorem getD_colOf (v : List ℚ) (i : Nat) (h : i < v.length) :
    (colOf v).getD i [] = [v.getD i 0] := by
  have h2 : i < (colOf v).length := by simpa [colOf] using h
  rw [List.getD_eq_getElem _ _ h2, List.getD_eq_getElem _ _ h]
  simp [colOf]

/-- `getD` through `zipWith`. -/
theorem getD_zipWith (f : ℚ → ℚ → ℚ) (a b : List ℚ) (i : Nat)
    (ha : i < a.length) (hb : i < b.length) :
    (List.zipWith f a b).getD i 0 = f (a.getD i 0) (b.getD i 0) := by
  have h2 : i < (List.zipWith f a b).length := by
    rw [List.length_zipWith]; omega
  rw [List.getD_eq_getElem _ _ h2, List.getD_eq_getElem _ _ ha,
    List.getD_eq_getElem _ _ hb, List.getElem_zipWith]

/-- `getD` through NumPy fancy indexing. -/
theorem getD_fancyIndex (coef : List ℚ) (gidx : List Nat) (i : Nat)
    (h : i < gidx.length) :
    (fancyIndex coef gidx).getD i 0 = coef.getD (gidx.getD i 0) 0 := by
  have h2 : i < (fancyIndex coef gidx).length := by simpa [fancyIndex] using h
  rw [List.getD_eq_getElem _ _ h2, List.getD_eq_getElem _ _ h]
  simp [fancyIndex]

/-- The broadcast product of two columns is the column of products. -/
theorem mulMat_colOf (a b : List ℚ) :
    mulMat (colOf a) (colOf b) = colOf (List.zipWith (· * ·) a b) := by
  induction a generalizing b with
  | nil => cases b <;> rfl
  | cons x xs ih =>
    cases b with
    | nil => rfl
    | cons y ys =>
      simp only [mulMat, colOf, List.map, List.zipWith] at ih ⊢
      rw [ih]

/-- Claim C5: for a random-effect term whose group indices all lie in
[0, g) (with g the number of coefficient rows), the contribution added
to the linear predictor has one row per observation and its row i is the
coefficient selected by the observation's group index times the term's
raw predictor value at row i. -/
theorem C5_random_effect (t : Term) (coef : List ℚ) (n : Nat)
    (hrand : t.random = true)
    (hidx : ∀ j ∈ t.group_index, j < coef.length)
    (hlen : t.group_index.length = n)
    (hpred : t.predictor.length = n) :
    (termContrib t coef).length = n
    ∧ ∀ i, ∀ hi : i < n,
        (termContrib t coef).getD i [] =
          [coef.get ⟨t.group_index.get ⟨i, hlen.symm ▸ hi⟩,
              hidx _ (List.get_mem _ _ _)⟩ *
            t.predictor.get ⟨i, hpred.symm ▸ hi⟩] := by
  have hc : termContrib t coef =
      colOf (List.zipWith (· * ·) (fancyIndex coef t.group_index) t.predictor) := by
    rw [termContrib, if_pos hrand, mulMat_colOf]
  have hfi : (fancyIndex coef t.group_index).length = n := by simp [fancyIndex, hlen]
  constructor
  · rw [hc]
    simp [colOf, List.length_zipWith, hfi, hpred]
  · intro i hi
    have hzl : i < (List.zipWith (· * ·) (fancyIndex coef t.group_index)
        t.predictor).length := by
      rw [List.length_zipWith]
      omega
    rw [hc, getD_colOf _ _ hzl, getD_zipWith _ _ _ _ (by omega) (by omega),
      getD_fancyIndex _ _ _ (by omega)]
    have hg : t.group_index.getD i 0 = t.group_index.get ⟨i, hlen.symm ▸ hi⟩ := by
      rw [List.getD_eq_getElem _ _ (hlen.symm ▸ hi)]
      rfl
    have hp : t.predictor.getD i 0 = t.predictor.get ⟨i, hpred.symm ▸ hi⟩ := by
      rw [List.getD_eq_getElem _ _ (hpred.symm ▸ hi)]
      rfl
    rw [hg, hp, List.getD_eq_getElem _ _ (hidx _ (List.get_mem _ _ _))]
    rfl

/-- Witness for C5: three observations in two groups; row 0 has group
index 1, so picks coefficient 7 and multiplies the raw predictor 2. -/
theorem C5_random_effect_witness :
    (termContrib tRand [5, 7]).length = 3
    ∧ (termContrib tRand [5, 7]).getD 0 [] = [14] := by
  constructor
  · exact (C5_random_effect tRand [5, 7] 3 rfl (by decide) rfl rfl).1
  · have h := (C5_random_effect tRand [5, 7] 3 rfl (by decide) rfl rfl).2 0 (by norm_num)
    rw [h]
    simp [tRand]
    norm_num

/-- Claim C6: `build` initializes the running linear predictor to the
scalar zero; for a fixed-effect term with an (n, k) data matrix the
coefficient distribution is built with `shape=k` (the number of design
columns), and the contribution added to the predictor is the column of
dot products of the data rows with the coefficients — an (n, 1) array. -/
theorem C6_fixed_effect (t : Term) (coef : List ℚ) (coefs : Term → List ℚ) (n k : Nat)
    (hfix : t.random = false)
    (hrows : t.data.length = n)
    (hk : t.nCols = k) :
    buildMu [] coefs = MuVal.scalar 0
    ∧ List.lookup "shape" (coefCall t).2.2 = some (Val.nat k)
    ∧ (termContrib t coef).length = n
    ∧ (∀ row ∈ termContrib t coef, row.length = 1)
    ∧ ∀ i, i < n →
        (termContrib t coef).getD i [] = [dotList (t.data.getD i []) coef] := by
  have hc : termContrib t coef = colOf (matVec t.data coef) := by
    rw [termContrib, if_neg (by simp [hfix])]
  refine ⟨rfl, ?_, ?_, ?_, ?_⟩
  · simp [coefCall, List.lookup, hk]
  · rw [hc]
    simp [colOf, matVec, hrows]
  · rw [hc]
    intro row hrow
    simp only [colOf, matVec, List.mem_map] at hrow
    obtain ⟨x, _, hx⟩ := hrow
    rw [← hx]
    rfl
  · intro i hi
    have hmv : i < (matVec t.data coef).length := by simp [matVec]; omega
    rw [hc, getD_colOf _ _ hmv]
    have hd : i < t.data.length := by omega
    rw [List.getD_eq_getElem _ _ hmv, List.getD_eq_getElem _ _ hd]
    simp [matVec]

/-- Witness for C6: a 3×2 design matrix yields a shape-2 coefficient
call and a 3-row column whose row 0 is the dot product of the first data
row with the coefficients. -/
theorem C6_fixed_effect_witness :
    List.lookup "shape" (coefCall tFix).2.2 = some (Val.nat 2)
    ∧ (termContrib tFix [10, 100]).length = 3
    ∧ (termContrib tFix [10, 100]).getD 0 [] = [dotList [1, 2] [10, 100]] :=
  ⟨(C6_fixed_effect tFix [10, 100] (fun t => []) 3 2 rfl rfl rfl).2.1,
   (C6_fixed_effect tFix [10, 100] (fun t => []) 3 2 rfl rfl rfl).2.2.1,
   (C6_fixed_effect tFix [10, 100] (fun t => []) 3 2 rfl rfl rfl).2.2.2.2 0 (by norm_num)⟩

/-- The boolean guard of the non-centered branch holds exactly when the
four documented conditions hold: non-centered mode, a "sigma" keyword
argument, no "observed" keyword argument, and a sigma value that is a
transformed random variable. -/
theorem finish_trigger_iff (env : PmEnv) (spec : ModelSpec)
    (kw : List (String × Val)) :
    (spec.noncentered && (List.lookup "sigma" kw).isSome
        && (List.lookup "observed" kw).isNone
        && isTransformedRV env ((List.lookup "sigma" kw).getD (Val.nat 0))) = true
    ↔ (spec.noncentered = true
        ∧ (∃ sg, List.lookup "sigma" kw = some sg ∧ isTransformedRV env sg = true)
        ∧ List.lookup "observed" kw = none) := by
  cases hs : List.lookup "sigma" kw with
  | none => simp [hs]
  | some sg =>
    simp only [hs, Option.isSome_some, Option.getD_some, Bool.and_eq_true,
      Option.isNone_iff_eq_none, Option.some.injEq]
    constructor
    · rintro ⟨⟨⟨hnc, -⟩, hobs⟩, htf⟩
      exact ⟨hnc, ⟨sg, rfl, htf⟩, hobs⟩
    · rintro ⟨hnc, ⟨sg2, hsg2, htf⟩, hobs⟩
      subst hsg2
      exact ⟨⟨⟨hnc, trivial⟩, hobs⟩, htf⟩

/-- Claim C1: the non-centered reparameterization branch is taken if and
only if all four conditions hold (non-centered flag, "sigma" present,
"observed" absent, sigma a transformed variable); when taken, a standard
normal offset named `label + "_offset"` with the call's shape argument
is created and the returned variable is the deterministic product of the
offset and sigma; when not taken, the resolved distribution is
constructed directly with the (expanded) supplied arguments. -/
theorem C1_noncentered_branch (env : PmEnv) (spec : ModelSpec) (label dist : String)
    (kwargs kw : List (String × Val)) (tr : List GraphVar) (r : Resolved) (sh : Val)
    (hres : resolveDist env dist = Except.ok r)
    (hexp : _expand_kwargs env spec label kwargs = Except.ok (kw, tr))
    (hsh : List.lookup "shape" kw = some sh) :
    ((spec.noncentered = true
        ∧ (∃ sg, List.lookup "sigma" kw = some sg ∧ isTransformedRV env sg = true)
        ∧ List.lookup "observed" kw = none)
      ↔ _build_dist env spec label dist kwargs =
          Except.ok (Built.offsetTimesSigma label sh
              ((List.lookup "sigma" kw).getD (Val.nat 0)),
            tr ++ [GraphVar.offsetVar (label ++ "_offset") sh,
                   GraphVar.detVar label (label ++ "_offset")
                     ((List.lookup "sigma" kw).getD (Val.nat 0))]))
    ∧ (¬(spec.noncentered = true
          ∧ (∃ sg, List.lookup "sigma" kw = some sg ∧ isTransformedRV env sg = true)
          ∧ List.lookup "observed" kw = none) →
        _build_dist env spec label dist kwargs =
          Except.ok (Built.direct r label kw,
            tr ++ [GraphVar.distVar label r kw])) := by
  have hb : _build_dist env spec label dist kwargs =
      _finish_dist env spec label r kw tr := by
    rw [_build_dist]
    simp only [hres, hexp]
  have hneg : ∀ (hP : ¬(spec.noncentered = true
      ∧ (∃ sg, List.lookup "sigma" kw = some sg ∧ isTransformedRV env sg = true)
      ∧ List.lookup "observed" kw = none)),
      _build_dist env spec label dist kwargs =
        Except.ok (Built.direct r label kw,
          tr ++ [GraphVar.distVar label r kw]) := by
    intro hP
    rw [hb, _finish_dist, if_neg]
    intro hc
    exact hP ((finish_trigger_iff env spec kw).mp hc)
  constructor
  · constructor
    · intro hP
      obtain ⟨hnc, ⟨sg, hsg, htf⟩, hobs⟩ := hP
      rw [hb, _finish_dist,
        if_pos ((finish_trigger_iff env spec kw).mpr ⟨hnc, ⟨sg, hsg, htf⟩, hobs⟩)]
      simp only [hsg, hsh, Option.getD_some]
    · intro heq
      by_contra hP
      rw [hneg hP] at heq
      simp at heq
  · exact hneg

/-- Witness for C1: with the non-centered flag set, a transformed sigma,
no observed argument and shape 3, the builder returns the deterministic
offset-times-sigma form and creates the offset variable. -/
theorem C1_noncentered_branch_witness :
    _build_dist envAll specNC "x" "Normal"
        [("sigma", Val.raw true "s"), ("shape", Val.nat 3)] =
      Except.ok (Built.offsetTimesSigma "x" (Val.nat 3) (Val.raw true "s"),
        [GraphVar.offsetVar "x_offset" (Val.nat 3),
         GraphVar.detVar "x" "x_offset" (Val.raw true "s")]) :=
  (C1_noncentered_branch envAll specNC "x" "Normal"
      [("sigma", Val.raw true "s"), ("shape", Val.nat 3)]
      [("sigma", Val.raw true "s"), ("shape", Val.nat 3)] []
      (Resolved.pmDist "Normal") (Val.nat 3) rfl rfl rfl).1.mp
    ⟨rfl, ⟨Val.raw true "s", rfl, rfl⟩, rfl⟩

/-- The tail of `_build_dist` appends the trace of the variables it
itself registers (the direct call, or the offset and the deterministic)
after the expansion trace. -/
theorem finish_dist_trace (env : PmEnv) (spec : ModelSpec) (label : String)
    (r : Resolved) (kw : List (String × Val)) (tr trAll : List GraphVar) (b : Built)
    (h : _finish_dist env spec label r kw tr = Except.ok (b, trAll)) :
    trAll = tr ++ ownerVars b := by
  rw [_finish_dist] at h
  split at h
  · cases hs : List.lookup "sigma" kw with
    | none => rw [hs] at h; simp at h
    | some old_sigma =>
      rw [hs] at h
      cases hsh : List.lookup "shape" kw with
      | none => rw [hsh] at h; simp at h
      | some sh =>
        rw [hsh] at h
        simp only [Except.ok.injEq, Prod.mk.injEq] at h
        obtain ⟨hb, htr⟩ := h
        subst hb
        rw [← htr]
        rfl
  · simp only [Except.ok.injEq, Prod.mk.injEq] at h
    obtain ⟨hb, htr⟩ := h
    subst hb
    rw [← htr]
    rfl

/-- Each keyword argument of a successful expansion: a `Prior` value is
replaced by the variable built for it under the derived label (and its
creation trace is inside the expansion trace); any other value passes
through unchanged, in place. -/
theorem expand_kwargs_per_arg (env : PmEnv) (spec : ModelSpec) (label : String) :
    ∀ (kwargs kw : List (String × Val)) (tr : List GraphVar),
      _expand_kwargs env spec label kwargs = Except.ok (kw, tr) →
      kw.length = kwargs.length
      ∧ ∀ i, i < kwargs.length →
          (∀ k nm args, kwargs.getD i ("", Val.nat 0) = (k, Val.prior nm args) →
            ∃ b tr2,
              _build_dist env spec (label ++ "_" ++ k) nm args = Except.ok (b, tr2)
              ∧ kw.getD i ("", Val.nat 0) = (k, Val.built b)
              ∧ tr2.IsInfix tr)
          ∧ (∀ k v, kwargs.getD i ("", Val.nat 0) = (k, v) →
              (∀ nm args, v ≠ Val.prior nm args) →
              kw.getD i ("", Val.nat 0) = (k, v)) := by
  intro kwargs
  induction kwargs with
  | nil =>
    intro kw tr h
    rw [_expand_kwargs] at h
    simp only [Except.ok.injEq, Prod.mk.injEq] at h
    obtain ⟨hkw, -⟩ := h
    subst hkw
    exact ⟨rfl, fun i hi => absurd hi (by simp)⟩
  | cons p rest ih =>
    obtain ⟨k0, v0⟩ := p
    intro kw tr h
    rw [_expand_kwargs] at h
    cases he : _expand_args env spec label k0 v0 with
    | error e => rw [he] at h; simp at h
    | ok pv =>
      obtain ⟨v2, tr1⟩ := pv
      rw [he] at h
      cases hr : _expand_kwargs env spec label rest with
      | error e => rw [hr] at h; simp at h
      | ok pr =>
        obtain ⟨rest2, tr2⟩ := pr
        rw [hr] at h
        simp only [Except.ok.injEq, Prod.mk.injEq] at h
        obtain ⟨hkw, htr⟩ := h
        subst hkw
        subst htr
        obtain ⟨ihlen, ihidx⟩ := ih rest2 tr2 hr
        refine ⟨by simp [ihlen], ?_⟩
        intro i hi
        cases i with
        | zero =>
          constructor
          · intro k nm args hk
            simp only [List.getD_cons_zero, Prod.mk.injEq] at hk
            obtain ⟨hk0, hv0⟩ := hk
            subst hk0
            subst hv0
            rw [_expand_args_prior_eq_build_dist] at he
            cases hbd : _build_dist env spec (label ++ "_" ++ k0) nm args with
            | error e => rw [hbd] at he; simp [Except.map] at he
            | ok pb =>
              obtain ⟨b, trb⟩ := pb
              rw [hbd] at he
              simp only [Except.map, Except.ok.injEq, Prod.mk.injEq] at he
              obtain ⟨hv2, htr1⟩ := he
              subst hv2
              subst htr1
              exact ⟨b, trb, rfl, by simp,
                (List.prefix_append trb tr2).isInfix⟩
          · intro k v hk hnp
            simp only [List.getD_cons_zero, Prod.mk.injEq] at hk
            obtain ⟨hk0, hv0⟩ := hk
            subst hk0
            subst hv0
            cases v0 with
            | prior nm args => exact absurd rfl (hnp nm args)
            | raw t s =>
              have hrfl : _expand_args env spec label k0 (Val.raw t s) =
                  Except.ok (Val.raw t s, ([] : List GraphVar)) := rfl
              rw [hrfl] at he
              simp only [Except.ok.injEq, Prod.mk.injEq] at he
              obtain ⟨hv2, -⟩ := he
              subst hv2
              simp
            | nat n =>
              have hrfl : _expand_args env spec label k0 (Val.nat n) =
                  Except.ok (Val.nat n, ([] : List GraphVar)) := rfl
              rw [hrfl] at he
              simp only [Except.ok.injEq, Prod.mk.injEq] at he
              obtain ⟨hv2, -⟩ := he
              subst hv2
              simp
            | built b =>
              have hrfl : _expand_args env spec label k0 (Val.built b) =
                  Except.ok (Val.built b, ([] : List GraphVar)) := rfl
              rw [hrfl] at he
              simp only [Except.ok.injEq, Prod.mk.injEq] at he
              obtain ⟨hv2, -⟩ := he
              subst hv2
              simp
        | succ j =>
          have hj : j < rest.length := by simpa using hi
          obtain ⟨ih1, ih2⟩ := ihidx j hj
          constructor
          · intro k nm args hk
            simp only [List.getD_cons_succ] at hk ⊢
            obtain ⟨b, trj, hbd, hkwj, hinf⟩ := ih1 k nm args hk
            exact ⟨b, trj, hbd, hkwj,
              hinf.trans (List.suffix_append tr1 tr2).isInfix⟩
          · intro k v hk hnp
            simp only [List.getD_cons_succ] at hk ⊢
            exact ih2 k v hk hnp

/-- Claim C8: in a successful builder call, every keyword argument whose
value is a nested prior is recursively built first — its creation trace
sits inside the expansion trace, which wholly precedes the owning
variable's own registrations — as a variable under the derived label
`label + "_" + key`, and the built variable is substituted for the
argument; arguments that are not nested priors pass through unchanged
and in place. -/
theorem C8_hyperprior_expansion (env : PmEnv) (spec : ModelSpec) (label dist : String)
    (kwargs kw : List (String × Val)) (tr : List GraphVar)
    (hexp : _expand_kwargs env spec label kwargs = Except.ok (kw, tr)) :
    kw.length = kwargs.length
    ∧ (∀ i, i < kwargs.length →
        (∀ k nm args, kwargs.getD i ("", Val.nat 0) = (k, Val.prior nm args) →
          ∃ b tr2,
            _build_dist env spec (label ++ "_" ++ k) nm args = Except.ok (b, tr2)
            ∧ kw.getD i ("", Val.nat 0) = (k, Val.built b)
            ∧ tr2.IsInfix tr)
        ∧ (∀ k v, kwargs.getD i ("", Val.nat 0) = (k, v) →
            (∀ nm args, v ≠ Val.prior nm args) →
            kw.getD i ("", Val.nat 0) = (k, v)))
    ∧ (∀ b trAll, _build_dist env spec label dist kwargs = Except.ok (b, trAll) →
        trAll = tr ++ ownerVars b) := by
  obtain ⟨h1, h2⟩ := expand_kwargs_per_arg env spec label kwargs kw tr hexp
  refine ⟨h1, h2, ?_⟩
  intro b trAll h
  rw [_build_dist] at h
  cases hres : resolveDist env dist with
  | error e => rw [hres] at h; simp at h
  | ok r =>
    rw [hres] at h
    simp only [hexp] at h
    exact finish_dist_trace env spec label r kw tr trAll b h

/-- Witness for C8: expanding a kwargs list with one nested prior and
one plain value keeps the length. -/
theorem C8_hyperprior_expansion_witness :
    ([("mu", Val.built (Built.direct (Resolved.pmDist "HalfNormal") "x_mu"
          [("sigma", Val.nat 1), ("shape", Val.nat 2)])),
      ("sd", Val.nat 5)] : List (String × Val)).length =
      ([("mu", Val.prior "HalfNormal" [("sigma", Val.nat 1), ("shape", Val.nat 2)]),
        ("sd", Val.nat 5)] : List (String × Val)).length :=
  (C8_hyperprior_expansion envAll specC "x" "Normal"
      [("mu", Val.prior "HalfNormal" [("sigma", Val.nat 1), ("shape", Val.nat 2)]),
       ("sd", Val.nat 5)]
      [("mu", Val.built (Built.direct (Resolved.pmDist "HalfNormal") "x_mu"
          [("sigma", Val.nat 1), ("shape", Val.nat 2)])),
       ("sd", Val.nat 5)]
      [GraphVar.distVar "x_mu" (Resolved.pmDist "HalfNormal")
          [("sigma", Val.nat 1), ("shape", Val.nat 2)]]
      rfl).1

/-- Claim C9: the non-centered branch reads `kwargs["shape"]`
unconditionally while a recursive hyperprior build forwards only the
nested prior's own arguments; so for a nested prior whose expanded
arguments satisfy the four trigger conditions but contain no "shape"
key, the builder fails with a missing-key error — at the recursive
`_build_dist` call, at the argument expansion that contains the nested
prior, and hence in the owning call. -/
theorem C9_missing_shape (env : PmEnv) (spec : ModelSpec) (lab k dist : String)
    (args kw : List (String × Val)) (tr : List GraphVar) (r : Resolved)
    (rest : List (String × Val))
    (hres : resolveDist env dist = Except.ok r)
    (hexp : _expand_kwargs env spec (lab ++ "_" ++ k) args = Except.ok (kw, tr))
    (hnc : spec.noncentered = true)
    (hsig : ∃ sg, List.lookup "sigma" kw = some sg ∧ isTransformedRV env sg = true)
    (hobs : List.lookup "observed" kw = none)
    (hnoshape : List.lookup "shape" kw = none) :
    _build_dist env spec (lab ++ "_" ++ k) dist args = Except.error "KeyError: shape"
    ∧ _expand_args env spec lab k (Val.prior dist args) =
        Except.error "KeyError: shape"
    ∧ _expand_kwargs env spec lab ((k, Val.prior dist args) :: rest) =
        Except.error "KeyError: shape" := by
  obtain ⟨sg, hsg, htf⟩ := hsig
  have h1 : _build_dist env spec (lab ++ "_" ++ k) dist args =
      Except.error "KeyError: shape" := by
    rw [_build_dist]
    simp only [hres, hexp]
    rw [_finish_dist,
      if_pos ((finish_trigger_iff env spec kw).mpr ⟨hnc, ⟨sg, hsg, htf⟩, hobs⟩)]
    simp only [hsg, hnoshape]
  have h2 : _expand_args env spec lab k (Val.prior dist args) =
      Except.error "KeyError: shape" := by
    rw [_expand_args_prior_eq_build_dist, h1]
    rfl
  refine ⟨h1, h2, ?_⟩
  rw [_expand_kwargs]
  simp only [h2]

/-- Witness for C9: a nested half-normal hyperprior with a transformed
sigma and no shape argument, under a non-centered spec, hits the missing
"shape" key. -/
theorem C9_missing_shape_witness :
    _build_dist envAll specNC ("x" ++ "_" ++ "mu") "HalfNormal"
        [("sigma", Val.raw true "s")] =
      Except.error "KeyError: shape" :=
  (C9_missing_shape envAll specNC "x" "mu" "HalfNormal"
      [("sigma", Val.raw true "s")] [("sigma", Val.raw true "s")] []
      (Resolved.pmDist "HalfNormal") []
      rfl rfl rfl ⟨Val.raw true "s", rfl, rfl⟩ rfl rfl).1

end Bambi
